import Mathlib

/-!
Verification of the rolling-window success/failure counter in `window.go`
(package `circuit`).

Shallow embedding conventions:
* `time.Time` / `time.Duration` values are nanosecond counts, embedded as
  unbounded `Int` (Go's `int64`; overflow is irrelevant to the claims).
* Every operation that in Go reads the wall clock (`time.Since`,
  `time.Now`) receives the current instant `now : Int` explicitly.
* `container/ring.Ring` is embedded as the list of bucket values in ring
  order together with the index `cur` of the element the ring pointer
  rests on.  `ring.New(n)` returns `nil` for `n ≤ 0`; the nil ring has
  `Len() = 0`, `Do` visits nothing, and dereferencing `Value` panics.
  Panics are embedded as `none` / `Except.error`.
* `float64` arithmetic in `ErrorRate` is embedded as exact rationals `ℚ`.
-/

namespace Circuit

/-- `bucket` holds counts of failures and successes (window.go). -/
structure Bucket where
  failure : Int
  success : Int
deriving Repr, DecidableEq

/-- `(*bucket).Reset` sets both counts to 0. -/
def Bucket.Reset (_ : Bucket) : Bucket := ⟨0, 0⟩

/-- `(*bucket).Fail` increments the failure count. -/
def Bucket.Fail (b : Bucket) : Bucket := { b with failure := b.failure + 1 }

/-- `(*bucket).Success` increments the success count. -/
def Bucket.Success (b : Bucket) : Bucket := { b with success := b.success + 1 }

/-- `window`: a ring of buckets (`buckets` in ring order, pointer at index
`cur`), the per-bucket duration and the time of last write access. -/
structure window where
  buckets : List Bucket
  cur : Nat
  bucketTime : Int
  lastAccess : Int
deriving Repr, DecidableEq

/-- `NewWindow(windowTime, windowBuckets)`, constructed at instant `now`
(Go: `lastAccess: time.Now()`).  `ring.New(windowBuckets)` yields a ring of
`windowBuckets` fresh buckets for positive counts and the nil ring (length
0) otherwise; `windowTime.Nanoseconds() / int64(windowBuckets)` is Go
`int64` division (truncation toward zero), which panics iff
`windowBuckets = 0`. -/
def NewWindow (windowTime : Int) (windowBuckets : Int) (now : Int) :
    Except String window :=
  let buckets : List Bucket := List.replicate windowBuckets.toNat ⟨0, 0⟩
  if windowBuckets = 0 then
    Except.error "runtime error: integer divide by zero"
  else
    Except.ok { buckets := buckets, cur := 0,
                bucketTime := Int.tdiv windowTime windowBuckets,
                lastAccess := now }

/-- `(*window).Fail` records a failure in the current bucket, first
rotating one step (and resetting the rotated-into bucket) when
`time.Since(w.lastAccess) > w.bucketTime`.  On the nil ring (empty bucket
list) `w.buckets.Value.(*bucket)` dereferences a nil pointer: `none`. -/
def window.Fail (w : window) (now : Int) : Option window :=
  if w.buckets = [] then none
  else if w.bucketTime < now - w.lastAccess then
    let c := (w.cur + 1) % w.buckets.length
    some { w with cur := c,
                  buckets := w.buckets.set c
                    (Bucket.Fail (Bucket.Reset (w.buckets.getD c ⟨0, 0⟩))),
                  lastAccess := now }
  else
    some { w with buckets := w.buckets.set w.cur
                    (Bucket.Fail (w.buckets.getD w.cur ⟨0, 0⟩)),
                  lastAccess := now }

/-- `(*window).Success`: as `Fail`, incrementing the success count. -/
def window.Success (w : window) (now : Int) : Option window :=
  if w.buckets = [] then none
  else if w.bucketTime < now - w.lastAccess then
    let c := (w.cur + 1) % w.buckets.length
    some { w with cur := c,
                  buckets := w.buckets.set c
                    (Bucket.Success (Bucket.Reset (w.buckets.getD c ⟨0, 0⟩))),
                  lastAccess := now }
  else
    some { w with buckets := w.buckets.set w.cur
                    (Bucket.Success (w.buckets.getD w.cur ⟨0, 0⟩)),
                  lastAccess := now }

/-- `ring.Do` visits the ring elements starting at the current element:
the bucket list rotated so that the current bucket comes first. -/
def window.doList (w : window) : List Bucket := w.buckets.rotate w.cur

/-- `(*window).Failures`: total failures over all buckets (`ring.Do`). -/
def window.Failures (w : window) : Int :=
  (w.doList.map Bucket.failure).sum

/-- `(*window).Successes`: total successes over all buckets (`ring.Do`). -/
def window.Successes (w : window) : Int :=
  (w.doList.map Bucket.success).sum

/-- `(*window).ErrorRate`: accumulates `total` and `failures` over all
buckets; returns `0.0` when `total == 0`, else `failures / total`
(`float64` division embedded as exact division in `ℚ`). -/
def window.ErrorRate (w : window) : ℚ :=
  let total : Int := (w.doList.map (fun b => b.failure + b.success)).sum
  let failures : Int := (w.doList.map Bucket.failure).sum
  if total = 0 then 0 else (failures : ℚ) / (total : ℚ)

/-- `(*window).Reset` resets the count of all buckets (`ring.Do`). -/
def window.Reset (w : window) : window :=
  { w with buckets := w.buckets.map Bucket.Reset }

/-- A recorded operation: one `Fail` or `Success` call. -/
inductive Op where
  | fail
  | succ
deriving Repr, DecidableEq

/-- Run a sequence of timed write calls left to right. -/
def window.run (w : window) : List (Op × Int) → Option window
  | [] => some w
  | (Op.fail, t) :: rest => (w.Fail t).bind (fun w' => w'.run rest)
  | (Op.succ, t) :: rest => (w.Success t).bind (fun w' => w'.run rest)

/-!
Ghost instrumentation for the coverage claim: the same data and the same
control flow as `bucket`/`window`, except that each counter additionally
remembers the instants of the events it counts (a counter's value is the
length of its ghost list).  Projecting the ghost lists to their lengths
recovers the embedding above exactly (`gfail_refines`,
`gsuccess_refines` below), so every ghost trace is a trace of the code.
-/

/-- `bucket` with ghost event instants; `failure = fails.length` and
`success = succs.length`. -/
structure GBucket where
  fails : List Int
  succs : List Int
deriving Repr, DecidableEq

/-- Forget the ghost instants, keeping the counts. -/
def GBucket.toBucket (b : GBucket) : Bucket :=
  ⟨b.fails.length, b.succs.length⟩

/-- `window` over ghost buckets. -/
structure gwindow where
  buckets : List GBucket
  cur : Nat
  bucketTime : Int
  lastAccess : Int
deriving Repr, DecidableEq

/-- Forget the ghost instants of every bucket. -/
def gwindow.toWindow (g : gwindow) : window :=
  ⟨g.buckets.map GBucket.toBucket, g.cur, g.bucketTime, g.lastAccess⟩

/-- `NewWindow`, ghost-instrumented. -/
def NewGWindow (windowTime : Int) (windowBuckets : Int) (now : Int) :
    Except String gwindow :=
  if windowBuckets = 0 then
    Except.error "runtime error: integer divide by zero"
  else
    Except.ok { buckets := List.replicate windowBuckets.toNat ⟨[], []⟩,
                cur := 0,
                bucketTime := Int.tdiv windowTime windowBuckets,
                lastAccess := now }

/-- `(*window).Fail`, ghost-instrumented: identical control flow, the
increment additionally records the instant `now`. -/
def gwindow.Fail (g : gwindow) (now : Int) : Option gwindow :=
  if g.buckets = [] then none
  else if g.bucketTime < now - g.lastAccess then
    let c := (g.cur + 1) % g.buckets.length
    some { g with cur := c,
                  buckets := g.buckets.set c ⟨[now], []⟩,
                  lastAccess := now }
  else
    let b := g.buckets.getD g.cur ⟨[], []⟩
    some { g with buckets := g.buckets.set g.cur
                    ⟨now :: b.fails, b.succs⟩,
                  lastAccess := now }

/-- `(*window).Success`, ghost-instrumented. -/
def gwindow.Success (g : gwindow) (now : Int) : Option gwindow :=
  if g.buckets = [] then none
  else if g.bucketTime < now - g.lastAccess then
    let c := (g.cur + 1) % g.buckets.length
    some { g with cur := c,
                  buckets := g.buckets.set c ⟨[], [now]⟩,
                  lastAccess := now }
  else
    let b := g.buckets.getD g.cur ⟨[], []⟩
    some { g with buckets := g.buckets.set g.cur
                    ⟨b.fails, now :: b.succs⟩,
                  lastAccess := now }

/-- The instants of all events currently summed into the aggregates. -/
def gwindow.events (g : gwindow) : List Int :=
  (g.buckets.map (fun b => b.fails ++ b.succs)).flatten

/-- The nominal window span `bucketCount × bucketDuration`. -/
def gwindow.nominal (g : gwindow) : Int :=
  (g.buckets.length : Int) * g.bucketTime

example : Int.tdiv (-7) 2 = -3 := by decide

/-! ## Helper lemmas -/

@[simp] lemma Bucket.failure_Reset (b : Bucket) : (Bucket.Reset b).failure = 0 := rfl

@[simp] lemma Bucket.success_Reset (b : Bucket) : (Bucket.Reset b).success = 0 := rfl

lemma sum_map_rotate (l : List Bucket) (n : Nat) (f : Bucket → Int) :
    ((l.rotate n).map f).sum = (l.map f).sum :=
  List.Perm.sum_eq (List.Perm.map f (List.rotate_perm l n))

lemma sum_map_add_bucket (l : List Bucket) (f g : Bucket → Int) :
    (l.map (fun b => f b + g b)).sum = (l.map f).sum + (l.map g).sum := by
  induction l with
  | nil => simp
  | cons b l ih => simp [ih]; ring

lemma Failures_eq_sum (w : window) :
    w.Failures = (w.buckets.map Bucket.failure).sum := by
  unfold window.Failures window.doList
  exact sum_map_rotate _ _ _

lemma Successes_eq_sum (w : window) :
    w.Successes = (w.buckets.map Bucket.success).sum := by
  unfold window.Successes window.doList
  exact sum_map_rotate _ _ _

lemma ErrorRate_eq (w : window) :
    w.ErrorRate = if w.Failures + w.Successes = 0 then 0
      else (w.Failures : ℚ) / ((w.Failures : ℚ) + (w.Successes : ℚ)) := by
  unfold window.ErrorRate
  rw [show (w.doList.map (fun b => b.failure + b.success)).sum
        = w.Failures + w.Successes by
      rw [sum_map_add_bucket, Failures_eq_sum, Successes_eq_sum,
        window.doList, sum_map_rotate, sum_map_rotate]
    , show (w.doList.map Bucket.failure).sum = w.Failures by
      rw [Failures_eq_sum, window.doList, sum_map_rotate]]
  by_cases h : w.Failures + w.Successes = 0 <;> simp [h]

lemma getD_set_ne (l : List Bucket) (i j : Nat) (b d : Bucket) (h : i ≠ j) :
    (l.set i b).getD j d = l.getD j d := by
  induction l generalizing i j with
  | nil => simp
  | cons a l ih =>
    cases i with
    | zero => cases j with
      | zero => exact absurd rfl h
      | succ m => simp
    | succ n => cases j with
      | zero => simp
      | succ m =>
        simp only [List.set_cons_succ, List.getD_cons_succ]
        exact ih n m (fun hnm => h (by rw [hnm]))

lemma getD_set_self (l : List Bucket) (i : Nat) (b d : Bucket)
    (h : i < l.length) :
    (l.set i b).getD i d = b := by
  induction l generalizing i with
  | nil => simp at h
  | cons a l ih =>
    cases i with
    | zero => simp
    | succ n =>
      simp only [List.set_cons_succ, List.getD_cons_succ]
      exact ih n (by simpa using h)

lemma sum_map_set (l : List Bucket) (i : Nat) (b : Bucket) (f : Bucket → Int)
    (h : i < l.length) :
    ((l.set i b).map f).sum = (l.map f).sum - f (l.getD i ⟨0, 0⟩) + f b := by
  induction l generalizing i with
  | nil => simp at h
  | cons a l ih =>
    cases i with
    | zero => simp; ring
    | succ n =>
      simp only [List.set_cons_succ, List.getD_cons_succ, List.map_cons,
        List.sum_cons]
      rw [ih n (by simpa using h)]
      ring

/-- Characterization of `Fail` when no rotation fires: the strict test
`time.Since(lastAccess) > bucketTime` fails, so the current bucket is
incremented in place. -/
lemma fail_no_rotate (w : window) (now : Int) (hne : w.buckets ≠ [])
    (h : now - w.lastAccess ≤ w.bucketTime) :
    w.Fail now = some { w with
      buckets := w.buckets.set w.cur
        (Bucket.Fail (w.buckets.getD w.cur ⟨0, 0⟩)),
      lastAccess := now } := by
  simp only [window.Fail, if_neg hne, if_neg (not_lt.mpr h)]

/-- Characterization of `Fail` when rotation fires: pointer advances one
step, the rotated-into bucket is reset and then incremented. -/
lemma fail_rotate (w : window) (now : Int) (hne : w.buckets ≠ [])
    (h : w.bucketTime < now - w.lastAccess) :
    w.Fail now = some { w with
      cur := (w.cur + 1) % w.buckets.length,
      buckets := w.buckets.set ((w.cur + 1) % w.buckets.length) ⟨1, 0⟩,
      lastAccess := now } := by
  simp only [window.Fail, if_neg hne, if_pos h]
  rfl

lemma success_no_rotate (w : window) (now : Int) (hne : w.buckets ≠ [])
    (h : now - w.lastAccess ≤ w.bucketTime) :
    w.Success now = some { w with
      buckets := w.buckets.set w.cur
        (Bucket.Success (w.buckets.getD w.cur ⟨0, 0⟩)),
      lastAccess := now } := by
  simp only [window.Success, if_neg hne, if_neg (not_lt.mpr h)]

lemma success_rotate (w : window) (now : Int) (hne : w.buckets ≠ [])
    (h : w.bucketTime < now - w.lastAccess) :
    w.Success now = some { w with
      cur := (w.cur + 1) % w.buckets.length,
      buckets := w.buckets.set ((w.cur + 1) % w.buckets.length) ⟨0, 1⟩,
      lastAccess := now } := by
  simp only [window.Success, if_neg hne, if_pos h]
  rfl

/-! ## Claims -/

/-- C1: for every window state, `ErrorRate()` returns
`totalFailures / (totalFailures + totalSuccesses)` computed over the
counts of all buckets in the ring, and returns exactly `0.0` when
`totalFailures + totalSuccesses` is zero. -/
theorem errorRate_formula (w : window) :
    w.ErrorRate = if w.Failures + w.Successes = 0 then 0
      else (w.Failures : ℚ) / ((w.Failures : ℚ) + (w.Successes : ℚ)) :=
  ErrorRate_eq w

/-- C7: `Reset()` zeroes every bucket while leaving `lastAccess` and the
current pointer unchanged; every read issued immediately afterwards
returns zero. -/
theorem reset_zeroes_frame (w : window) :
    w.Reset.lastAccess = w.lastAccess ∧ w.Reset.cur = w.cur ∧
    (∀ b ∈ w.Reset.buckets, b.failure = 0 ∧ b.success = 0) ∧
    w.Reset.Failures = 0 ∧ w.Reset.Successes = 0 ∧ w.Reset.ErrorRate = 0 := by
  refine ⟨rfl, rfl, ?_, ?_, ?_, ?_⟩
  · intro b hb
    simp only [window.Reset, List.mem_map] at hb
    obtain ⟨a, -, rfl⟩ := hb
    exact ⟨rfl, rfl⟩
  · rw [Failures_eq_sum]
    simp [window.Reset, List.map_map, Function.comp_def]
  · rw [Successes_eq_sum]
    simp [window.Reset, List.map_map, Function.comp_def]
  · rw [ErrorRate_eq, Failures_eq_sum, Successes_eq_sum]
    simp [window.Reset, List.map_map, Function.comp_def]

theorem reset_zeroes_frame_witness :
    (window.Reset ⟨[⟨3, 4⟩, ⟨5, 6⟩], 1, 10, 7⟩).lastAccess = 7 ∧
    (window.Reset ⟨[⟨3, 4⟩, ⟨5, 6⟩], 1, 10, 7⟩).cur = 1 ∧
    (window.Reset ⟨[⟨3, 4⟩, ⟨5, 6⟩], 1, 10, 7⟩).Failures = 0 ∧
    (window.Reset ⟨[⟨3, 4⟩, ⟨5, 6⟩], 1, 10, 7⟩).Successes = 0 ∧
    (window.Reset ⟨[⟨3, 4⟩, ⟨5, 6⟩], 1, 10, 7⟩).ErrorRate = 0 :=
  ⟨(reset_zeroes_frame ⟨[⟨3, 4⟩, ⟨5, 6⟩], 1, 10, 7⟩).1,
   (reset_zeroes_frame ⟨[⟨3, 4⟩, ⟨5, 6⟩], 1, 10, 7⟩).2.1,
   (reset_zeroes_frame ⟨[⟨3, 4⟩, ⟨5, 6⟩], 1, 10, 7⟩).2.2.2.1,
   (reset_zeroes_frame ⟨[⟨3, 4⟩, ⟨5, 6⟩], 1, 10, 7⟩).2.2.2.2.1,
   (reset_zeroes_frame ⟨[⟨3, 4⟩, ⟨5, 6⟩], 1, 10, 7⟩).2.2.2.2.2⟩

/-- C8: the reads `Failures()`, `Successes()` and `ErrorRate()` are
embedded as pure functions of the window state because the Go read path
performs no mutation; moreover each sums over every bucket of the ring
regardless of position, so its value is independent of the current
pointer, of `lastAccess` and of `bucketTime` (no rotation check happens
on reads). -/
theorem reads_no_mutation (w : window) (cur' : Nat) (bt' la' : Int) :
    w.Failures = (w.buckets.map Bucket.failure).sum ∧
    w.Successes = (w.buckets.map Bucket.success).sum ∧
    window.Failures ⟨w.buckets, cur', bt', la'⟩ = w.Failures ∧
    window.Successes ⟨w.buckets, cur', bt', la'⟩ = w.Successes ∧
    window.ErrorRate ⟨w.buckets, cur', bt', la'⟩ = w.ErrorRate := by
  refine ⟨Failures_eq_sum w, Successes_eq_sum w, ?_, ?_, ?_⟩
  · rw [Failures_eq_sum, Failures_eq_sum]
  · rw [Successes_eq_sum, Successes_eq_sum]
  · rw [ErrorRate_eq, ErrorRate_eq, Failures_eq_sum, Failures_eq_sum,
      Successes_eq_sum, Successes_eq_sum]

example : window.Fail ⟨[⟨1, 0⟩, ⟨0, 0⟩], 0, 10, 0⟩ 10 =
    some ⟨[⟨2, 0⟩, ⟨0, 0⟩], 0, 10, 10⟩ := by decide

example : window.Fail ⟨[⟨1, 0⟩, ⟨0, 0⟩], 0, 10, 0⟩ 11 =
    some ⟨[⟨1, 0⟩, ⟨1, 0⟩], 1, 10, 11⟩ := by decide

example : NewWindow 100 (-1) 0 = Except.ok ⟨[], 0, -100, 0⟩ := rfl

example : window.ErrorRate ⟨[⟨1, 0⟩, ⟨0, 1⟩], 0, 10, 0⟩ = 1 / 2 := by
  norm_num [window.ErrorRate, window.doList]

/-- C2: every successful write (`Fail` or `Success`), no matter how long
the window has been idle, advances the current pointer by at most one
ring step and modifies at most the one bucket it lands in; every other
bucket keeps its (possibly stale) counts, so stale buckets stay in the
aggregates until individually rotated past by later writes. -/
theorem write_single_step (w : window) (now : Int) (wf ws : window)
    (hf : w.Fail now = some wf) (hs : w.Success now = some ws) :
    (wf.cur = w.cur ∨ wf.cur = (w.cur + 1) % w.buckets.length) ∧
    wf.buckets.length = w.buckets.length ∧
    (∀ i, i ≠ wf.cur → wf.buckets.getD i ⟨0, 0⟩ = w.buckets.getD i ⟨0, 0⟩) ∧
    (ws.cur = w.cur ∨ ws.cur = (w.cur + 1) % w.buckets.length) ∧
    ws.buckets.length = w.buckets.length ∧
    (∀ i, i ≠ ws.cur → ws.buckets.getD i ⟨0, 0⟩ = w.buckets.getD i ⟨0, 0⟩) := by
  have hne : w.buckets ≠ [] := by
    intro h
    rw [window.Fail, if_pos h] at hf
    exact Option.noConfusion hf
  rcases le_or_lt (now - w.lastAccess) w.bucketTime with h | h
  · rw [fail_no_rotate w now hne h] at hf
    rw [success_no_rotate w now hne h] at hs
    injection hf with hf
    injection hs with hs
    subst hf
    subst hs
    refine ⟨Or.inl rfl, by simp, ?_, Or.inl rfl, by simp, ?_⟩ <;>
      exact fun i hi => getD_set_ne _ _ _ _ _ (Ne.symm hi)
  · rw [fail_rotate w now hne h] at hf
    rw [success_rotate w now hne h] at hs
    injection hf with hf
    injection hs with hs
    subst hf
    subst hs
    refine ⟨Or.inr rfl, by simp, ?_, Or.inr rfl, by simp, ?_⟩ <;>
      exact fun i hi => getD_set_ne _ _ _ _ _ (Ne.symm hi)

theorem write_single_step_witness :
    window.Fail ⟨[⟨1, 0⟩, ⟨2, 3⟩], 0, 10, 0⟩ 100 =
      some ⟨[⟨1, 0⟩, ⟨1, 0⟩], 1, 10, 100⟩ ∧
    (⟨[⟨1, 0⟩, ⟨1, 0⟩], 1, 10, 100⟩ : window).buckets.getD 0 ⟨0, 0⟩ =
      (⟨[⟨1, 0⟩, ⟨2, 3⟩], 0, 10, 0⟩ : window).buckets.getD 0 ⟨0, 0⟩ :=
  ⟨by decide,
    (write_single_step ⟨[⟨1, 0⟩, ⟨2, 3⟩], 0, 10, 0⟩ 100
      ⟨[⟨1, 0⟩, ⟨1, 0⟩], 1, 10, 100⟩ ⟨[⟨1, 0⟩, ⟨0, 1⟩], 1, 10, 100⟩
      (by decide) (by decide)).2.2.1 0 (by decide)⟩

/-- C3 counterexample: with `bucketTime = 10`, a `Fail` arriving when the
elapsed time since `lastAccess` is exactly `10` does not rotate — the
pointer stays at 0 and the current bucket is incremented in place — and
the rotated outcome the claim predicts does not occur. -/
theorem rotation_at_exact_boundary_counterexample :
    window.Fail ⟨[⟨1, 0⟩, ⟨0, 0⟩], 0, 10, 0⟩ 10 =
      some ⟨[⟨2, 0⟩, ⟨0, 0⟩], 0, 10, 10⟩ ∧
    ¬ (window.Fail ⟨[⟨1, 0⟩, ⟨0, 0⟩], 0, 10, 0⟩ 10 =
        some ⟨[⟨1, 0⟩, ⟨1, 0⟩], 1, 10, 10⟩) := by
  decide

/-- C3 amended: the rotation decision on every write is strict —
elapsed   > bucketDuration rotates one step, while a write at elapsed
time exactly equal to bucketDuration does not rotate and increments the
current bucket in place. -/
theorem rotation_decision_strict (w : window) (now : Int)
    (hcur : w.cur < w.buckets.length) :
    (now - w.lastAccess = w.bucketTime →
      ∃ w', w.Fail now = some w' ∧ w'.cur = w.cur ∧
        w'.Failures = w.Failures + 1 ∧ w'.Successes = w.Successes) ∧
    (w.bucketTime < now - w.lastAccess →
      ∃ w', w.Fail now = some w' ∧
        w'.cur = (w.cur + 1) % w.buckets.length ∧
        w'.buckets.getD w'.cur ⟨0, 0⟩ = ⟨1, 0⟩) := by
  have hlen : 0 < w.buckets.length := Nat.lt_of_le_of_lt (Nat.zero_le _) hcur
  have hne : w.buckets ≠ [] := List.length_pos.mp hlen
  constructor
  · intro heq
    refine ⟨_, fail_no_rotate w now hne (le_of_eq heq), rfl, ?_, ?_⟩
    · rw [Failures_eq_sum, Failures_eq_sum]
      show ((w.buckets.set w.cur _).map _).sum = _
      rw [sum_map_set _ _ _ _ hcur]
      simp [Bucket.Fail]
      ring
    · rw [Successes_eq_sum, Successes_eq_sum]
      show ((w.buckets.set w.cur _).map _).sum = _
      rw [sum_map_set _ _ _ _ hcur]
      simp [Bucket.Fail]
  · intro h
    refine ⟨_, fail_rotate w now hne h, rfl, ?_⟩
    exact getD_set_self _ _ _ _ (Nat.mod_lt _ hlen)

theorem rotation_decision_strict_witness :
    (∃ w', window.Fail ⟨[⟨3, 4⟩, ⟨0, 0⟩], 0, 10, 0⟩ 10 = some w' ∧
      w'.cur = 0 ∧ w'.Failures = window.Failures ⟨[⟨3, 4⟩, ⟨0, 0⟩], 0, 10, 0⟩ + 1 ∧
      w'.Successes = window.Successes ⟨[⟨3, 4⟩, ⟨0, 0⟩], 0, 10, 0⟩) ∧
    (∃ w', window.Fail ⟨[⟨3, 4⟩, ⟨0, 0⟩], 0, 10, 0⟩ 21 = some w' ∧
      w'.cur = 1 ∧ w'.buckets.getD w'.cur ⟨0, 0⟩ = ⟨1, 0⟩) :=
  ⟨(rotation_decision_strict ⟨[⟨3, 4⟩, ⟨0, 0⟩], 0, 10, 0⟩ 10 (by decide)).1
      (by decide),
   (rotation_decision_strict ⟨[⟨3, 4⟩, ⟨0, 0⟩], 0, 10, 0⟩ 21 (by decide)).2
      (by decide)⟩

/-- C10: when rotation fires, the rotated-into bucket is reset to zero
before the increment, so the new current bucket holds exactly one failure
and zero successes after a rotating `Fail` (symmetrically for `Success`);
consequently a single write can strictly decrease the aggregate counts —
`Failures()` is not monotone across writes. -/
theorem rotate_resets_before_increment (w : window) (now : Int)
    (hcur : w.cur < w.buckets.length)
    (hrot : w.bucketTime < now - w.lastAccess) :
    (∃ wf, w.Fail now = some wf ∧ wf.buckets.getD wf.cur ⟨0, 0⟩ = ⟨1, 0⟩) ∧
    (∃ ws, w.Success now = some ws ∧
      ws.buckets.getD ws.cur ⟨0, 0⟩ = ⟨0, 1⟩) ∧
    (window.Fail ⟨[⟨5, 0⟩], 0, 10, 0⟩ 100 = some ⟨[⟨1, 0⟩], 0, 10, 100⟩ ∧
      window.Failures ⟨[⟨1, 0⟩], 0, 10, 100⟩ <
        window.Failures ⟨[⟨5, 0⟩], 0, 10, 0⟩) := by
  have hlen : 0 < w.buckets.length := Nat.lt_of_le_of_lt (Nat.zero_le _) hcur
  have hne : w.buckets ≠ [] := List.length_pos.mp hlen
  refine ⟨⟨_, fail_rotate w now hne hrot, ?_⟩,
    ⟨_, success_rotate w now hne hrot, ?_⟩, by decide, by decide⟩ <;>
    exact getD_set_self _ _ _ _ (Nat.mod_lt _ hlen)

theorem rotate_resets_before_increment_witness :
    (∃ wf, window.Fail ⟨[⟨5, 0⟩], 0, 10, 0⟩ 100 = some wf ∧
      wf.buckets.getD wf.cur ⟨0, 0⟩ = ⟨1, 0⟩) ∧
    (∃ ws, window.Success ⟨[⟨5, 0⟩], 0, 10, 0⟩ 100 = some ws ∧
      ws.buckets.getD ws.cur ⟨0, 0⟩ = ⟨0, 1⟩) ∧
    (window.Fail ⟨[⟨5, 0⟩], 0, 10, 0⟩ 100 = some ⟨[⟨1, 0⟩], 0, 10, 100⟩ ∧
      window.Failures ⟨[⟨1, 0⟩], 0, 10, 100⟩ <
        window.Failures ⟨[⟨5, 0⟩], 0, 10, 0⟩) :=
  rotate_resets_before_increment ⟨[⟨5, 0⟩], 0, 10, 0⟩ 100 (by decide) (by decide)

lemma set_ne_nil (l : List Bucket) (i : Nat) (b : Bucket) (h : l ≠ []) :
    l.set i b ≠ [] := by
  intro hc
  apply h
  rw [← List.length_eq_zero] at hc ⊢
  rwa [List.length_set] at hc

/-- C4 counterexample: `NewWindow` with the non-positive bucket count
`-1` is not fatal at construction — `ring.New(-1)` returns the nil ring,
the fill loop runs zero times and the duration division succeeds — and
the failure (nil-pointer dereference) is deferred to the first write. -/
theorem negative_bucket_count_not_fatal_counterexample :
    NewWindow 100 (-1) 0 = Except.ok ⟨[], 0, -100, 0⟩ ∧
    window.Fail ⟨[], 0, -100, 0⟩ 0 = none ∧
    window.Success ⟨[], 0, -100, 0⟩ 0 = none :=
  ⟨rfl, rfl, rfl⟩

/-- C4 amended: only `windowBuckets = 0` is fatal at construction time
(integer division by zero); `windowBuckets < 0` constructs successfully
with the nil ring, deferring the failure to the first write; and
`windowBuckets ≥ 1` constructs a window with `windowBuckets` buckets on
which every write succeeds and preserves the nonempty ring (reads and
`Reset` are total), so no later operation can fail. -/
theorem construction_failure_modes (windowTime windowBuckets now : Int) :
    (windowBuckets = 0 →
      NewWindow windowTime windowBuckets now =
        Except.error "runtime error: integer divide by zero") ∧
    (windowBuckets < 0 →
      ∃ w, NewWindow windowTime windowBuckets now = Except.ok w ∧
        w.buckets = [] ∧ ∀ t, w.Fail t = none ∧ w.Success t = none) ∧
    (1 ≤ windowBuckets →
      ∃ w, NewWindow windowTime windowBuckets now = Except.ok w ∧
        w.buckets.length = windowBuckets.toNat ∧ w.buckets ≠ [] ∧
        ∀ w' : window, w'.buckets ≠ [] → ∀ t,
          (∃ w'', w'.Fail t = some w'' ∧ w''.buckets ≠ []) ∧
          (∃ w'', w'.Success t = some w'' ∧ w''.buckets ≠ [])) := by
  refine ⟨?_, ?_, ?_⟩
  · intro h
    simp [NewWindow, h]
  · intro h
    have h0 : windowBuckets ≠ 0 := by omega
    have ht : windowBuckets.toNat = 0 := by omega
    refine ⟨⟨[], 0, Int.tdiv windowTime windowBuckets, now⟩, ?_, rfl, ?_⟩
    · simp [NewWindow, h0, ht]
    · intro t
      exact ⟨rfl, rfl⟩
  · intro h
    have h0 : windowBuckets ≠ 0 := by omega
    refine ⟨⟨List.replicate windowBuckets.toNat ⟨0, 0⟩, 0,
      Int.tdiv windowTime windowBuckets, now⟩, by simp [NewWindow, h0],
      by simp, ?_, ?_⟩
    · simp only [ne_eq, List.replicate_eq_nil_iff]
      omega
    · intro w' hne t
      constructor
      · rcases le_or_lt (t - w'.lastAccess) w'.bucketTime with hc | hc
        · exact ⟨_, fail_no_rotate w' t hne hc, set_ne_nil _ _ _ hne⟩
        · exact ⟨_, fail_rotate w' t hne hc, set_ne_nil _ _ _ hne⟩
      · rcases le_or_lt (t - w'.lastAccess) w'.bucketTime with hc | hc
        · exact ⟨_, success_no_rotate w' t hne hc, set_ne_nil _ _ _ hne⟩
        · exact ⟨_, success_rotate w' t hne hc, set_ne_nil _ _ _ hne⟩

theorem construction_failure_modes_witness :
    NewWindow 100 0 0 = Except.error "runtime error: integer divide by zero" ∧
    (∃ w, NewWindow 100 (-1) 0 = Except.ok w ∧
      w.buckets = [] ∧ ∀ t, w.Fail t = none ∧ w.Success t = none) ∧
    (∃ w, NewWindow 100 10 0 = Except.ok w ∧
      w.buckets.length = (10 : Int).toNat ∧ w.buckets ≠ [] ∧
      ∀ w' : window, w'.buckets ≠ [] → ∀ t,
        (∃ w'', w'.Fail t = some w'' ∧ w''.buckets ≠ []) ∧
        (∃ w'', w'.Success t = some w'' ∧ w''.buckets ≠ [])) :=
  ⟨(construction_failure_modes 100 0 0).1 rfl,
   (construction_failure_modes 100 (-1) 0).2.1 (by decide),
   (construction_failure_modes 100 10 0).2.2 (by decide)⟩

/-- Number of `Fail` calls in an operation sequence. -/
def nFails : List (Op × Int) → Nat
  | [] => 0
  | (Op.fail, _) :: rest => nFails rest + 1
  | (Op.succ, _) :: rest => nFails rest

/-- Number of `Success` calls in an operation sequence. -/
def nSuccs : List (Op × Int) → Nat
  | [] => 0
  | (Op.fail, _) :: rest => nSuccs rest
  | (Op.succ, _) :: rest => nSuccs rest + 1

lemma nFails_add_nSuccs (ops : List (Op × Int)) :
    nFails ops + nSuccs ops = ops.length := by
  induction ops with
  | nil => rfl
  | cons p rest ih =>
    obtain ⟨op, t⟩ := p
    cases op <;> simp [nFails, nSuccs, ih] <;> omega

lemma nFails_map_fail (ts : List Int) :
    nFails (ts.map (fun t => (Op.fail, t))) = ts.length := by
  induction ts <;> simp [nFails, *]

lemma Failures_zero_of_all_zero (w : window)
    (hzero : ∀ b ∈ w.buckets, b = ⟨0, 0⟩) : w.Failures = 0 := by
  rw [Failures_eq_sum]
  apply List.sum_eq_zero
  intro x hx
  obtain ⟨b, hb, rfl⟩ := List.mem_map.mp hx
  rw [hzero b hb]

lemma Successes_zero_of_all_zero (w : window)
    (hzero : ∀ b ∈ w.buckets, b = ⟨0, 0⟩) : w.Successes = 0 := by
  rw [Successes_eq_sum]
  apply List.sum_eq_zero
  intro x hx
  obtain ⟨b, hb, rfl⟩ := List.mem_map.mp hx
  rw [hzero b hb]

/-- Running any sequence of writes whose instants all fall in the
half-open span `[L, L + bucketTime)`, starting from a window last
accessed no earlier than `L`, never rotates: the pointer stays put,
non-current buckets are untouched and the counters accumulate one unit
per call. -/
lemma run_within_bucket (ops : List (Op × Int)) (L : Int) (w : window)
    (hcur : w.cur < w.buckets.length)
    (hla : L ≤ w.lastAccess)
    (hts : ∀ p ∈ ops, L ≤ p.2 ∧ p.2 - L < w.bucketTime) :
    ∃ w', w.run ops = some w' ∧
      w'.cur = w.cur ∧ w'.bucketTime = w.bucketTime ∧
      w'.buckets.length = w.buckets.length ∧
      L ≤ w'.lastAccess ∧
      (∀ i, i ≠ w.cur → w'.buckets.getD i ⟨0, 0⟩ = w.buckets.getD i ⟨0, 0⟩) ∧
      w'.Failures = w.Failures + nFails ops ∧
      w'.Successes = w.Successes + nSuccs ops := by
  induction ops generalizing w with
  | nil =>
    exact ⟨w, rfl, rfl, rfl, rfl, hla, fun i _ => rfl, by simp [nFails],
      by simp [nSuccs]⟩
  | cons p rest ih =>
    obtain ⟨op, t⟩ := p
    have hp := hts (op, t) (List.mem_cons_self _ _)
    have hno : t - w.lastAccess ≤ w.bucketTime := by omega
    have hne : w.buckets ≠ [] :=
      List.length_pos.mp (Nat.lt_of_le_of_lt (Nat.zero_le _) hcur)
    cases op with
    | fail =>
      set w₁ : window := { w with
        buckets := w.buckets.set w.cur
          (Bucket.Fail (w.buckets.getD w.cur ⟨0, 0⟩)),
        lastAccess := t } with hw₁
      have hcur₁ : w₁.cur < w₁.buckets.length := by
        simpa [hw₁, List.length_set] using hcur
      have hla₁ : L ≤ w₁.lastAccess := hp.1
      have hts₁ : ∀ q ∈ rest, L ≤ q.2 ∧ q.2 - L < w₁.bucketTime :=
        fun q hq => hts q (List.mem_cons_of_mem _ hq)
      obtain ⟨w', hrun, hc, hbt, hlen, hla', hframe, hF, hS⟩ :=
        ih w₁ hcur₁ hla₁ hts₁
      refine ⟨w', ?_, hc, hbt, by simpa [hw₁, List.length_set] using hlen,
        hla', ?_, ?_, ?_⟩
      · simp only [window.run, fail_no_rotate w t hne hno, Option.bind]
        exact hrun
      · intro i hi
        rw [hframe i hi]
        exact getD_set_ne _ _ _ _ _ (Ne.symm hi)
      · rw [hF, nFails]
        have : w₁.Failures = w.Failures + 1 := by
          rw [Failures_eq_sum, Failures_eq_sum, hw₁]
          show ((w.buckets.set w.cur _).map _).sum = _
          rw [sum_map_set _ _ _ _ hcur]
          simp [Bucket.Fail]
          ring
        rw [this]
        push_cast
        ring
      · rw [hS, nSuccs]
        have : w₁.Successes = w.Successes := by
          rw [Successes_eq_sum, Successes_eq_sum, hw₁]
          show ((w.buckets.set w.cur _).map _).sum = _
          rw [sum_map_set _ _ _ _ hcur]
          simp [Bucket.Fail]
        rw [this]
    | succ =>
      set w₁ : window := { w with
        buckets := w.buckets.set w.cur
          (Bucket.Success (w.buckets.getD w.cur ⟨0, 0⟩)),
        lastAccess := t } with hw₁
      have hcur₁ : w₁.cur < w₁.buckets.length := by
        simpa [hw₁, List.length_set] using hcur
      have hla₁ : L ≤ w₁.lastAccess := hp.1
      have hts₁ : ∀ q ∈ rest, L ≤ q.2 ∧ q.2 - L < w₁.bucketTime :=
        fun q hq => hts q (List.mem_cons_of_mem _ hq)
      obtain ⟨w', hrun, hc, hbt, hlen, hla', hframe, hF, hS⟩ :=
        ih w₁ hcur₁ hla₁ hts₁
      refine ⟨w', ?_, hc, hbt, by simpa [hw₁, List.length_set] using hlen,
        hla', ?_, ?_, ?_⟩
      · simp only [window.run, success_no_rotate w t hne hno, Option.bind]
        exact hrun
      · intro i hi
        rw [hframe i hi]
        exact getD_set_ne _ _ _ _ _ (Ne.symm hi)
      · rw [hF, nFails]
        have : w₁.Failures = w.Failures := by
          rw [Failures_eq_sum, Failures_eq_sum, hw₁]
          show ((w.buckets.set w.cur _).map _).sum = _
          rw [sum_map_set _ _ _ _ hcur]
          simp [Bucket.Success]
        rw [this]
      · rw [hS, nSuccs]
        have : w₁.Successes = w.Successes + 1 := by
          rw [Successes_eq_sum, Successes_eq_sum, hw₁]
          show ((w.buckets.set w.cur _).map _).sum = _
          rw [sum_map_set _ _ _ _ hcur]
          simp [Bucket.Success]
          ring
        rw [this]
        push_cast
        ring

lemma getD_zero_of_all_zero (l : List Bucket) (h : ∀ b ∈ l, b = ⟨0, 0⟩)
    (i : Nat) : l.getD i ⟨0, 0⟩ = ⟨0, 0⟩ := by
  induction l generalizing i with
  | nil => simp
  | cons a l ih =>
    cases i with
    | zero => simpa using h a (List.mem_cons_self _ _)
    | succ n =>
      rw [List.getD_cons_succ]
      exact ih (fun b hb => h b (List.mem_cons_of_mem _ hb)) n

/-- C6: for every sequence of `Fail`/`Success` calls issued within a span
shorter than one bucket-duration of the most recent access, starting from
a window whose buckets are all zero (fresh or just reset), every
increment lands in the same (current) bucket — the pointer never moves
and every other bucket stays zero — and afterwards
`Failures() + Successes()` equals the number of calls. -/
theorem writes_within_one_bucket (w : window) (ops : List (Op × Int))
    (hcur : w.cur < w.buckets.length)
    (hzero : ∀ b ∈ w.buckets, b = ⟨0, 0⟩)
    (hts : ∀ p ∈ ops, w.lastAccess ≤ p.2 ∧ p.2 - w.lastAccess < w.bucketTime) :
    ∃ w', w.run ops = some w' ∧ w'.cur = w.cur ∧
      (∀ i, i ≠ w.cur → w'.buckets.getD i ⟨0, 0⟩ = ⟨0, 0⟩) ∧
      w'.Failures + w'.Successes = ops.length := by
  obtain ⟨w', hrun, hc, -, -, -, hframe, hF, hS⟩ :=
    run_within_bucket ops w.lastAccess w hcur le_rfl hts
  refine ⟨w', hrun, hc, ?_, ?_⟩
  · intro i hi
    rw [hframe i hi]
    exact getD_zero_of_all_zero _ hzero i
  · rw [hF, hS, Failures_zero_of_all_zero w hzero,
      Successes_zero_of_all_zero w hzero]
    have := nFails_add_nSuccs ops
    push_cast [← this]
    ring

theorem writes_within_one_bucket_witness :
    ∃ w', window.run ⟨[⟨0, 0⟩, ⟨0, 0⟩], 0, 10, 0⟩
        [(Op.fail, 1), (Op.succ, 2), (Op.fail, 3)] = some w' ∧
      w'.cur = 0 ∧ (∀ i, i ≠ 0 → w'.buckets.getD i ⟨0, 0⟩ = ⟨0, 0⟩) ∧
      w'.Failures + w'.Successes = 3 :=
  writes_within_one_bucket ⟨[⟨0, 0⟩, ⟨0, 0⟩], 0, 10, 0⟩
    [(Op.fail, 1), (Op.succ, 2), (Op.fail, 3)]
    (by decide) (by decide) (by decide)

/-- C9: writes are serialized by the window's exclusive lock, so `N`
concurrent writers each recording one failure within one bucket-duration
of the last access execute as some sequential order of their `N` `Fail`
calls; for every such order (arbitrary list of instants in the span) the
resulting `Failures()` is exactly `N` — no update is lost. -/
theorem concurrent_writers_exact_count (N : Nat) (ts : List Int)
    (w : window) (hN : ts.length = N)
    (hcur : w.cur < w.buckets.length)
    (hzero : ∀ b ∈ w.buckets, b = ⟨0, 0⟩)
    (hts : ∀ t ∈ ts, w.lastAccess ≤ t ∧ t - w.lastAccess < w.bucketTime) :
    ∃ w', w.run (ts.map (fun t => (Op.fail, t))) = some w' ∧
      w'.Failures = N := by
  have hts' : ∀ p ∈ ts.map (fun t => (Op.fail, t)),
      w.lastAccess ≤ p.2 ∧ p.2 - w.lastAccess < w.bucketTime := by
    intro p hp
    obtain ⟨t, ht, rfl⟩ := List.mem_map.mp hp
    exact hts t ht
  obtain ⟨w', hrun, -, -, -, -, -, hF, -⟩ :=
    run_within_bucket _ w.lastAccess w hcur le_rfl hts'
  refine ⟨w', hrun, ?_⟩
  rw [hF, Failures_zero_of_all_zero w hzero, nFails_map_fail, hN]
  ring

theorem concurrent_writers_exact_count_witness :
    ∃ w', window.run ⟨[⟨0, 0⟩, ⟨0, 0⟩, ⟨0, 0⟩], 0, 100, 50⟩
        (([55, 51, 149, 60] : List Int).map (fun t => (Op.fail, t)))
        = some w' ∧
      w'.Failures = 4 :=
  concurrent_writers_exact_count 4 [55, 51, 149, 60]
    ⟨[⟨0, 0⟩, ⟨0, 0⟩, ⟨0, 0⟩], 0, 100, 50⟩
    (by decide) (by decide) (by decide) (by decide)

lemma gfail_no_rotate (g : gwindow) (now : Int) (hne : g.buckets ≠ [])
    (h : now - g.lastAccess ≤ g.bucketTime) :
    g.Fail now = some { g with
      buckets := g.buckets.set g.cur
        ⟨now :: (g.buckets.getD g.cur ⟨[], []⟩).fails,
         (g.buckets.getD g.cur ⟨[], []⟩).succs⟩,
      lastAccess := now } := by
  simp only [gwindow.Fail, if_neg hne, if_neg (not_lt.mpr h)]

lemma gfail_rotate (g : gwindow) (now : Int) (hne : g.buckets ≠ [])
    (h : g.bucketTime < now - g.lastAccess) :
    g.Fail now = some { g with
      cur := (g.cur + 1) % g.buckets.length,
      buckets := g.buckets.set ((g.cur + 1) % g.buckets.length) ⟨[now], []⟩,
      lastAccess := now } := by
  simp only [gwindow.Fail, if_neg hne, if_pos h]

/-- Projecting the ghost instants away commutes with `Fail`: the
instrumented model follows the code exactly. -/
lemma gfail_refines (g : gwindow) (now : Int) :
    (g.Fail now).map gwindow.toWindow = g.toWindow.Fail now := by
  by_cases hne : g.buckets = []
  · simp [gwindow.Fail, window.Fail, gwindow.toWindow, hne]
  · have hne' : g.toWindow.buckets ≠ [] := by
      simp [gwindow.toWindow, hne]
    by_cases hrot : g.bucketTime < now - g.lastAccess
    · rw [gfail_rotate g now hne hrot, fail_rotate g.toWindow now hne' hrot,
        Option.map_some']
      simp only [gwindow.toWindow, List.map_set, List.length_map]
      rfl
    · rw [gfail_no_rotate g now hne (not_lt.mp hrot),
        fail_no_rotate g.toWindow now hne' (not_lt.mp hrot),
        Option.map_some']
      simp only [gwindow.toWindow, List.map_set]
      rw [show (⟨0, 0⟩ : Bucket) = GBucket.toBucket ⟨[], []⟩ from rfl,
        List.getD_map]
      rfl

lemma gsuccess_refines (g : gwindow) (now : Int) :
    (g.Success now).map gwindow.toWindow = g.toWindow.Success now := by
  by_cases hne : g.buckets = []
  · simp [gwindow.Success, window.Success, gwindow.toWindow, hne]
  · have hne' : g.toWindow.buckets ≠ [] := by
      simp [gwindow.toWindow, hne]
    by_cases hrot : g.bucketTime < now - g.lastAccess
    · rw [show g.Success now = some { g with
          cur := (g.cur + 1) % g.buckets.length,
          buckets := g.buckets.set ((g.cur + 1) % g.buckets.length) ⟨[], [now]⟩,
          lastAccess := now } by
            simp only [gwindow.Success, if_neg hne, if_pos hrot],
        success_rotate g.toWindow now hne' hrot, Option.map_some']
      simp only [gwindow.toWindow, List.map_set, List.length_map]
      rfl
    · rw [show g.Success now = some { g with
          buckets := g.buckets.set g.cur
            ⟨(g.buckets.getD g.cur ⟨[], []⟩).fails,
             now :: (g.buckets.getD g.cur ⟨[], []⟩).succs⟩,
          lastAccess := now } by
            simp only [gwindow.Success, if_neg hne, if_neg hrot],
        success_no_rotate g.toWindow now hne' (not_lt.mp hrot),
        Option.map_some']
      simp only [gwindow.toWindow, List.map_set]
      rw [show (⟨0, 0⟩ : Bucket) = GBucket.toBucket ⟨[], []⟩ from rfl,
        List.getD_map]
      rfl

/-- C5 counterexample: a reachable state immediately after a write whose
counted activity spans more than `bucketCount × bucketDuration`.  A
2-bucket window of bucket duration 10 built at instant 0 receives
failures at instants 0, 100 and 105; at `lastAccess = 105` (the moment of
a write, i.e. not a period without writes) the instant-0 event is still
summed into the aggregates, a covered span of 105 against a nominal
window of 20.  Projecting the ghost instants away, the same trace is a
`window.run` trace of the source embedding (last conjunct). -/
theorem stale_span_counterexample :
    ((((NewGWindow 20 2 0).toOption.bind (fun g0 => g0.Fail 0)).bind
        (fun g1 => g1.Fail 100)).bind (fun g2 => g2.Fail 105)) =
      some ⟨[⟨[0], []⟩, ⟨[105, 100], []⟩], 1, 10, 105⟩ ∧
    0 ∈ gwindow.events ⟨[⟨[0], []⟩, ⟨[105, 100], []⟩], 1, 10, 105⟩ ∧
    gwindow.nominal ⟨[⟨[0], []⟩, ⟨[105, 100], []⟩], 1, 10, 105⟩ <
      (105 : Int) - 0 ∧
    window.run ⟨[⟨0, 0⟩, ⟨0, 0⟩], 0, 10, 0⟩
        [(Op.fail, 0), (Op.fail, 100), (Op.fail, 105)] =
      some (gwindow.toWindow ⟨[⟨[0], []⟩, ⟨[105, 100], []⟩], 1, 10, 105⟩) := by
  decide

/-- C5 amended: the sum of counts can cover more than
`bucketCount × bucketDuration` of wall-clock activity, and not only
during periods in which no writes occur: after an idle gap the stale
events persist across subsequent writes (until their buckets are rotated
past).  For every bucket duration `d > 0` and every gap `T > 2·d`, the
2-bucket window built at 0 that records a failure at 0 and the next
failure at `T` still counts the instant-0 event at the write instant
`T`, a covered span exceeding the nominal `2·d`. -/
theorem stale_span_persists_across_writes (d T : Int) (hd : 0 < d)
    (hT : 2 * d < T) :
    ∃ g0 g1 g2, NewGWindow (2 * d) 2 0 = Except.ok g0 ∧
      g0.Fail 0 = some g1 ∧ g1.Fail T = some g2 ∧
      0 ∈ g2.events ∧ g2.lastAccess = T ∧
      g2.nominal < g2.lastAccess - 0 := by
  have htd : Int.tdiv (2 * d) 2 = d := Int.mul_tdiv_cancel_left d (by norm_num)
  refine ⟨⟨[⟨[], []⟩, ⟨[], []⟩], 0, d, 0⟩,
          ⟨[⟨[0], []⟩, ⟨[], []⟩], 0, d, 0⟩,
          ⟨[⟨[0], []⟩, ⟨[T], []⟩], 1, d, T⟩, ?_, ?_, ?_, ?_, rfl, ?_⟩
  · unfold NewGWindow
    rw [if_neg (by norm_num), htd]
    rfl
  · rw [gfail_no_rotate _ 0 (by simp)
      (by show (0 : Int) - 0 ≤ d; omega)]
    rfl
  · rw [gfail_rotate _ T (by simp)
      (by show d < T - 0; omega)]
    rfl
  · show (0 : Int) ∈ [0, T]
    simp
  · show ((2 : Nat) : Int) * d < T - 0
    push_cast
    omega

theorem stale_span_persists_across_writes_witness :
    ∃ g0 g1 g2, NewGWindow (2 * 10) 2 0 = Except.ok g0 ∧
      g0.Fail 0 = some g1 ∧ g1.Fail 30 = some g2 ∧
      0 ∈ g2.events ∧ g2.lastAccess = 30 ∧
      g2.nominal < g2.lastAccess - 0 :=
  stale_span_persists_across_writes 10 30 (by decide) (by decide)

end Circuit
